import Mathlib

/-!
Verification development for the Nova Sonic speech-to-speech WebRTC server.

Each section embeds one component of the Python source as executable Lean
definitions and proves the specified properties about them:

* `EventBridge.py` — ordered delivery / dedup of sequence-numbered data-channel
  messages, chunking of oversized messages, ack/retry bookkeeping;
* `s2s_session_manager.py` — voice-activity gating of audio chunks;
* `AudioProcessor.py` — session-readiness gating and precision resampling;
* `AudioOutputTrack.py` — jitter-buffer frame emission;
* `KVSWebRTCViewer.py` — SDP-answer validation.
-/

set_option autoImplicit false

namespace NovaS2S

/-! ## Ordered delivery and deduplication (`EventBridge.py`)

`_handle_data_channel_message` parses a data-channel message and dispatches on
its `type` field.  For the ordered-delivery claims only the identity, the
optional `sequenceNumber` and the `requireAck` flag of a message matter, so a
message is embedded as such a record (`message_data.get('id')` can be absent,
hence `Option`). -/

/-- A parsed S2S event message as seen by `EventBridge._handle_data_channel_message`:
`id`, optional `sequenceNumber`, and the `requireAck` flag. -/
structure SeqMessage where
  mid : Option String
  seqNum : Option Nat
  requireAck : Bool
  deriving DecidableEq

/-- Per-client reliability state of `EventBridge` (the `client_id`-indexed slices
of `expected_sequence_numbers`, `out_of_order_buffers`, `delivered_messages`),
together with the observable effects: the list of messages handed to
`_handle_s2s_event` (session-routing callback) in order, the acknowledgments
sent, and the `duplicate_messages` / `out_of_order_messages` statistics. -/
structure OrderState where
  expectedSeq : Nat
  oooBuffer : List (Nat × SeqMessage)
  deliveredIds : List String
  callbackLog : List SeqMessage
  acksSent : List (Option String)
  duplicateCount : Nat
  outOfOrderCount : Nat
  deriving DecidableEq

/-- State installed by `add_data_channel`: `expected_sequence_numbers[client] = 1`,
empty out-of-order buffer and delivered set. -/
def initOrderState : OrderState :=
  { expectedSeq := 1
    oooBuffer := []
    deliveredIds := []
    callbackLog := []
    acksSent := []
    duplicateCount := 0
    outOfOrderCount := 0 }

/-- Lookup in the out-of-order buffer (a Python dict keyed by sequence number). -/
def bufLookup (buf : List (Nat × SeqMessage)) (k : Nat) : Option SeqMessage :=
  match buf with
  | [] => none
  | (k2, m) :: rest => if k2 = k then some m else bufLookup rest k

/-- Removal of a key from the out-of-order buffer (`dict.pop`). -/
def bufErase (buf : List (Nat × SeqMessage)) (k : Nat) : List (Nat × SeqMessage) :=
  match buf with
  | [] => []
  | (k2, m) :: rest => if k2 = k then bufErase rest k else (k2, m) :: bufErase rest k

/-- Insertion into the out-of-order buffer (`buffer[seq] = message_data`). -/
def bufInsert (buf : List (Nat × SeqMessage)) (k : Nat) (m : SeqMessage) :
    List (Nat × SeqMessage) :=
  (k, m) :: bufErase buf k

/-- Effect of `_handle_s2s_event` on the modelled state: send an ack when
`requireAck` is set, then hand the event to the session-routing callback
(`_route_event_to_session_manager` / `on_event_received`). -/
def handleS2sEvent (st : OrderState) (m : SeqMessage) : OrderState :=
  { st with
      acksSent := if m.requireAck then st.acksSent ++ [m.mid] else st.acksSent
      callbackLog := st.callbackLog ++ [m] }

/-- `delivered_messages[client].add(id)` guarded by `if message_id:`, followed by
the 1000-entry cap that discards 500 entries once the set grows past 1000
(the Python code slices `list(set)[:500]`; insertion order stands in for the
set's iteration order). -/
def markDelivered (ids : List String) (mid : Option String) : List String :=
  match mid with
  | none => ids
  | some i =>
      let ids2 := if i ∈ ids then ids else ids ++ [i]
      if 1000 < ids2.length then ids2.drop 500 else ids2

/-- The duplicate test `if message_id and message_id in self.delivered_messages[client_id]`. -/
def isDeliveredDup (ids : List String) (mid : Option String) : Bool :=
  match mid with
  | none => false
  | some i => decide (i ∈ ids)

/-- One drain step of `_process_buffered_messages`: while the expected sequence
is in the out-of-order buffer, pop it, mark it delivered, hand it to
`_handle_s2s_event`, and advance the expected sequence.  The loop is embedded
with fuel equal to the buffer length (each iteration removes one entry, so
that much fuel always suffices). -/
def processBufferedAux : Nat → OrderState → OrderState
  | 0, st => st
  | fuel + 1, st =>
    match bufLookup st.oooBuffer st.expectedSeq with
    | none => st
    | some m =>
        processBufferedAux fuel
          { st with
              oooBuffer := bufErase st.oooBuffer st.expectedSeq
              deliveredIds := (match m.mid with
                | none => st.deliveredIds
                | some i => if i ∈ st.deliveredIds then st.deliveredIds
                            else st.deliveredIds ++ [i])
              acksSent := if m.requireAck then st.acksSent ++ [m.mid] else st.acksSent
              callbackLog := st.callbackLog ++ [m]
              expectedSeq := st.expectedSeq + 1 }

/-- `_process_buffered_messages` (EventBridge.py lines 916-939). -/
def processBuffered (st : OrderState) : OrderState :=
  processBufferedAux st.oooBuffer.length st

/-- `_handle_ordered_message` (EventBridge.py lines 870-914).  Returns whether
the message should be processed now (`True`) together with the updated state. -/
def handleOrderedMessage (st : OrderState) (m : SeqMessage) (seq : Nat) :
    Bool × OrderState :=
  if seq = st.expectedSeq then
    (true, processBuffered { st with expectedSeq := st.expectedSeq + 1 })
  else if st.expectedSeq < seq then
    (false,
      { st with
          oooBuffer := bufInsert st.oooBuffer seq m
          outOfOrderCount := st.outOfOrderCount + 1
          acksSent := if m.requireAck then st.acksSent ++ [m.mid] else st.acksSent })
  else
    (false,
      { st with
          duplicateCount := st.duplicateCount + 1
          acksSent := if m.requireAck then st.acksSent ++ [m.mid] else st.acksSent })

/-- `_handle_s2s_event_with_ordering` (EventBridge.py lines 832-868): duplicate
check against the delivered-id set, ordered-delivery admission when a
sequence number is present, then mark-delivered (with the bounded-set cap)
and `_handle_s2s_event`. -/
def handleWithOrdering (st : OrderState) (m : SeqMessage) : OrderState :=
  if isDeliveredDup st.deliveredIds m.mid then
    { st with
        duplicateCount := st.duplicateCount + 1
        acksSent := if m.requireAck then st.acksSent ++ [m.mid] else st.acksSent }
  else
    match m.seqNum with
    | some seq =>
        match handleOrderedMessage st m seq with
        | (false, st1) => st1
        | (true, st1) =>
            handleS2sEvent { st1 with deliveredIds := markDelivered st1.deliveredIds m.mid } m
    | none =>
        handleS2sEvent { st with deliveredIds := markDelivered st.deliveredIds m.mid } m

/-- The branch of `_handle_data_channel_message` taken for messages with
`type == 'S2S_EVENT'` (EventBridge.py lines 220-221): it calls
`_handle_s2s_event` directly — neither `_handle_s2s_event_with_ordering`,
nor the delivered-id set, nor `expected_sequence_numbers` is consulted. -/
def dispatchS2sEvent (st : OrderState) (m : SeqMessage) : OrderState :=
  handleS2sEvent st m

/-! ## Chunking of oversized messages (`EventBridge.py`)

`_send_large_message` slices the serialized message into `chunk_size`-character
pieces and sends each as a `CHUNK` message; `_handle_chunk` reassembles them in
a per-`chunkId` buffer.  Serialized payloads are embedded as `List Char`. -/

/-- `self.max_message_size = 65536` (64 KiB data-channel limit). -/
def maxMessageSize : Nat := 65536

/-- `self.chunk_size = 60000` (60 KB chunks "to be safe"). -/
def chunkSize : Nat := 60000

/-- `total_chunks = (len(serialized) + self.chunk_size - 1) // self.chunk_size`. -/
def totalChunksFor (cs : Nat) (s : List Char) : Nat :=
  (s.length + cs - 1) / cs

/-- The slice `serialized[i*cs : min((i+1)*cs, len)]` taken for chunk `i`. -/
def chunkSlice (cs : Nat) (s : List Char) (i : Nat) : List Char :=
  (s.drop (i * cs)).take cs

/-- A `CHUNK` data-channel message as built by `_send_large_message`. -/
structure ChunkMessage where
  chunkId : String
  chunkIndex : Nat
  totalChunks : Nat
  data : List Char
  isLast : Bool
  requireAck : Bool
  deriving DecidableEq

/-- The chunk message for index `i` of payload `s` (`_send_large_message` loop
body): `requireAck` is set only on the final chunk and only when the original
send asked for an ack. -/
def mkChunkMessage (cid : String) (ack : Bool) (s : List Char) (i : Nat) : ChunkMessage :=
  { chunkId := cid
    chunkIndex := i
    totalChunks := totalChunksFor chunkSize s
    data := chunkSlice chunkSize s i
    isLast := decide (i = totalChunksFor chunkSize s - 1)
    requireAck := ack && decide (i = totalChunksFor chunkSize s - 1) }

/-- `_send_large_message` (EventBridge.py lines 640-684): the ordered list of
chunk messages sent for payload `s` (`for i in range(total_chunks)`). -/
def sendLargeMessage (cid : String) (ack : Bool) (s : List Char) : List ChunkMessage :=
  (List.range (totalChunksFor chunkSize s)).map (mkChunkMessage cid ack s)

/-- One reassembly buffer in `self.chunk_buffers[chunk_id]`: the slot array
`'chunks': [None] * total_chunks` and `'received_count'`. -/
structure ChunkBuffer where
  chunks : List (Option (List Char))
  receivedCount : Nat
  deriving DecidableEq

/-- Association-list lookup for the `chunk_buffers` dict. -/
def tblLookup (tbl : List (String × ChunkBuffer)) (k : String) : Option ChunkBuffer :=
  match tbl with
  | [] => none
  | (k2, b) :: rest => if k2 = k then some b else tblLookup rest k

/-- Association-list removal for the `chunk_buffers` dict (`del`). -/
def tblErase (tbl : List (String × ChunkBuffer)) (k : String) : List (String × ChunkBuffer) :=
  match tbl with
  | [] => []
  | (k2, b) :: rest => if k2 = k then tblErase rest k else (k2, b) :: tblErase rest k

/-- Association-list write for the `chunk_buffers` dict. -/
def tblInsert (tbl : List (String × ChunkBuffer)) (k : String) (b : ChunkBuffer) :
    List (String × ChunkBuffer) :=
  (k, b) :: tblErase tbl k

/-- `''.join(buffer['chunks'])` raises `TypeError` when a slot is still `None`;
this returns `none` exactly in that case and the slot contents otherwise. -/
def seqOptions : List (Option (List Char)) → Option (List (List Char))
  | [] => some []
  | none :: _ => none
  | some c :: rest =>
      match seqOptions rest with
      | none => none
      | some cs => some (c :: cs)

/-- Observable outcome of one `_handle_chunk` call. -/
inductive ChunkOutcome where
  /-- Validation failed (`if not chunk_id or chunk_index is None or not total_chunks or not data`). -/
  | invalid : ChunkOutcome
  /-- Chunk stored; reassembly still incomplete. -/
  | stored : ChunkOutcome
  /-- `received_count` met `total_chunks` and the join succeeded: the buffer is
  deleted and the reassembled payload re-dispatched. -/
  | reassembled : List Char → ChunkOutcome
  /-- `received_count` met `total_chunks` but a slot was still empty: the join
  raised, the buffer was deleted, and the message was discarded. -/
  | discarded : ChunkOutcome
  deriving DecidableEq

/-- `_handle_chunk` (EventBridge.py lines 246-302).  The buffer for `chunkId` is
created on first arrival with `total_chunks` empty slots; the slot at
`chunkIndex` is overwritten and `received_count` incremented on every
reception; completion is decided by `received_count == total_chunks`, at
which point the slots are joined (deleting the buffer whether the join
succeeds or raises).  Re-dispatch of the reassembled JSON is represented by
the `reassembled` outcome carrying the joined payload. -/
def handleChunk (tbl : List (String × ChunkBuffer)) (cm : ChunkMessage) :
    List (String × ChunkBuffer) × ChunkOutcome :=
  if cm.chunkId = "" ∨ cm.totalChunks = 0 ∨ cm.data = [] then
    (tbl, .invalid)
  else
    let buf :=
      match tblLookup tbl cm.chunkId with
      | some b => b
      | none => { chunks := List.replicate cm.totalChunks none, receivedCount := 0 }
    let buf2 : ChunkBuffer :=
      { chunks := buf.chunks.set cm.chunkIndex (some cm.data)
        receivedCount := buf.receivedCount + 1 }
    if buf2.receivedCount = cm.totalChunks then
      match seqOptions buf2.chunks with
      | some parts => (tblErase tbl cm.chunkId, .reassembled parts.flatten)
      | none => (tblErase tbl cm.chunkId, .discarded)
    else
      (tblInsert tbl cm.chunkId buf2, .stored)

/-- Receiving a list of chunk messages one after the other, collecting the
outcome of each reception. -/
def receiveSequence (tbl : List (String × ChunkBuffer)) :
    List ChunkMessage → List (String × ChunkBuffer) × List ChunkOutcome
  | [] => (tbl, [])
  | cm :: rest =>
      let r1 := handleChunk tbl cm
      let r2 := receiveSequence r1.1 rest
      (r2.1, r1.2 :: r2.2)

/-! ## Ack timeout and retry sweep (`EventBridge.py`)

Wall-clock instants (`time.time()`) are embedded as rationals. -/

/-- Retry configuration: `self.max_retries = 3`, `self.retry_delay = 1.0`. -/
structure RetryConfig where
  maxRetries : Nat
  retryDelay : ℚ

/-- The defaults set in `EventBridge.__init__`. -/
def defaultRetryConfig : RetryConfig := { maxRetries := 3, retryDelay := 1 }

/-- One entry of `self.message_retry_map`: `{client_id, message, require_ack,
retry_count, last_attempt}` (the message payload itself is irrelevant to the
sweep decision and omitted). -/
structure RetryEntry where
  clientId : String
  retryCount : Nat
  lastAttempt : ℚ
  requireAck : Bool
  deriving DecidableEq

/-- What the retry sweep does with one entry. -/
inductive SweepAction where
  | retry : SweepAction
  | dropEntry : SweepAction
  | keep : SweepAction
  deriving DecidableEq

/-- The per-entry decision of `_retry_failed_messages` (EventBridge.py lines
1036-1070): `should_retry = time_since_attempt > retry_delay * 2**retry_count
and retry_count < max_retries`; a retry additionally requires
`is_client_connected(client_id)`; otherwise an entry with
`retry_count >= max_retries` is deleted and counted as dropped. -/
def sweepAction (cfg : RetryConfig) (now : ℚ) (connected : Bool) (e : RetryEntry) :
    SweepAction :=
  if now - e.lastAttempt > cfg.retryDelay * 2 ^ e.retryCount ∧ e.retryCount < cfg.maxRetries then
    if connected then .retry else .keep
  else if cfg.maxRetries ≤ e.retryCount then .dropEntry
  else .keep

/-- One pass of `_retry_failed_messages` over the whole retry map: returns the
updated map, the number of entries dropped (added to
`stats['messages_dropped']`), and the ids of the messages re-sent. -/
def retrySweep (cfg : RetryConfig) (now : ℚ) (connected : String → Bool)
    (m : List (String × RetryEntry)) :
    List (String × RetryEntry) × Nat × List String :=
  match m with
  | [] => ([], 0, [])
  | (mid, e) :: rest =>
      let r := retrySweep cfg now connected rest
      match sweepAction cfg now (connected e.clientId) e with
      | .retry =>
          ((mid, { e with retryCount := e.retryCount + 1, lastAttempt := now }) :: r.1,
            r.2.1, mid :: r.2.2)
      | .dropEntry => (r.1, r.2.1 + 1, r.2.2)
      | .keep => ((mid, e) :: r.1, r.2.1, r.2.2)

/-- The slice of `EventBridge` state relevant to acknowledgment handling:
`self.pending_acks`, `self.message_retry_map`, `stats['messages_sent']`, and
the set of ack-timeout timers started by `_send_single_message`. -/
structure AckState where
  pendingAcks : List String
  retryMap : List (String × RetryEntry)
  messagesSent : Nat
  ackTimers : List String
  deriving DecidableEq

/-- The empty initial state from `EventBridge.__init__`. -/
def initAckState : AckState :=
  { pendingAcks := [], retryMap := [], messagesSent := 0, ackTimers := [] }

/-- `_send_single_message` (EventBridge.py lines 627-638): sends on the channel,
increments `stats['messages_sent']`, and when `require_ack` is set starts an
`_handle_ack_timeout` task for the message id.  Note that nothing is ever
inserted into `pending_acks` or `message_retry_map` here. -/
def sendSingleMessage (st : AckState) (mid : String) (requireAck : Bool) : AckState :=
  { st with
      messagesSent := st.messagesSent + 1
      ackTimers := if requireAck then st.ackTimers ++ [mid] else st.ackTimers }

/-- `_handle_ack_timeout` (EventBridge.py lines 704-710): after `ack_timeout`
seconds, if the id is still in `pending_acks` it is deleted; nothing else
happens — in particular no retry is scheduled and `message_retry_map` is
untouched. -/
def handleAckTimeout (st : AckState) (mid : String) : AckState :=
  { st with pendingAcks := st.pendingAcks.erase mid }

/-! ## Voice-activity gating (`s2s_session_manager.py`)

`_process_audio_input` splits the decoded int16 samples into
`vad_frame_size`-sample windows and asks the detector about each complete
window.  The external `webrtcvad` detector is a parameter of the model; it
returns `none` when the call (or the surrounding audio analysis) raises. -/

/-- `self.vad_frame_size = int(16000 * 30 / 1000)` — 480 samples (30 ms at 16 kHz). -/
def vadFrameSize : Nat := 480

/-- The complete `vad_frame_size`-sample windows of a chunk
(`for i in range(0, len(audio_samples), self.vad_frame_size)` keeping only
frames with `len(frame) == self.vad_frame_size`), embedded with fuel equal
to the sample count (each step consumes 480 samples, so that much fuel
always suffices). -/
def completeFramesAux : Nat → List Int → List (List Int)
  | 0, _ => []
  | fuel + 1, samples =>
      if vadFrameSize ≤ samples.length then
        samples.take vadFrameSize :: completeFramesAux fuel (samples.drop vadFrameSize)
      else []

/-- The complete constituent frames of an audio chunk. -/
def completeFrames (samples : List Int) : List (List Int) :=
  completeFramesAux samples.length samples

/-- The VAD loop over the complete frames: `none` if evaluating any frame
raises (the exception propagates out of the loop), otherwise `some` of the
`has_speech` flag. -/
def scanFrames (v : List Int → Option Bool) : List (List Int) → Option Bool
  | [] => some false
  | f :: rest =>
      match v f with
      | none => none
      | some b =>
          match scanFrames v rest with
          | none => none
          | some c => some (b || c)

/-- Whether `_process_audio_input` (s2s_session_manager.py lines 340-396)
forwards the chunk to the model stream when VAD is enabled: with no speech
detected the loop hits `continue` and the chunk is skipped; on an exception
anywhere in the analysis the `except` branch falls through to
`send_raw_event` (explicit fail-safe); otherwise the chunk is sent exactly
when some complete frame was classified as speech. -/
def forwardsChunk (v : List Int → Option Bool) (samples : List Int) : Bool :=
  match scanFrames v (completeFrames samples) with
  | none => true
  | some hasSpeech => hasSpeech

/-! ## Session-readiness gating of inbound audio (`AudioProcessor.py`)

`_process_audio_track` receives one frame per loop iteration; frames arriving
before `has_received_session_start` are counted and discarded, frames after
are accumulated and flushed to `_process_audio_chunk` when enough samples are
buffered or the frame count is a multiple of 10. -/

/-- `chunk_size = 4096` in `_process_audio_track`. -/
def audioChunkSize : Nat := 4096

/-- The loop-local state of `_process_audio_track`: `frame_count`, the
`ignored_frames_before_s2s` statistic, `audio_chunk_buffer`, and the chunks
handed to `_process_audio_chunk` (the model-facing path). -/
structure TrackState where
  frameCount : Nat
  ignoredFrames : Nat
  chunkBuffer : List (List Int)
  forwardedChunks : List (List Int)
  deriving DecidableEq

/-- State at the start of `_process_audio_track`. -/
def initTrackState : TrackState :=
  { frameCount := 0, ignoredFrames := 0, chunkBuffer := [], forwardedChunks := [] }

/-- One iteration of the `_process_audio_track` loop (AudioProcessor.py lines
295-361) for a received frame: `frame_count` is incremented, then if
`has_received_session_start` is false the frame only increments
`ignored_frames_before_s2s` and is discarded (`continue`); otherwise it is
appended to `audio_chunk_buffer`, which is concatenated and handed to
`_process_audio_chunk` when it holds at least `chunk_size` samples or
`frame_count` is a multiple of 10. -/
def processTrackFrame (st : TrackState) (ready : Bool) (samples : List Int) : TrackState :=
  let fc := st.frameCount + 1
  if !ready then
    { st with frameCount := fc, ignoredFrames := st.ignoredFrames + 1 }
  else
    let buf := st.chunkBuffer ++ [samples]
    let totalSamples := (buf.map List.length).sum
    if audioChunkSize ≤ totalSamples ∨ fc % 10 = 0 then
      { frameCount := fc
        ignoredFrames := st.ignoredFrames
        chunkBuffer := []
        forwardedChunks := st.forwardedChunks ++ [buf.flatten] }
    else
      { st with frameCount := fc, chunkBuffer := buf }

/-- Running the track loop over a list of (readiness, frame) events. -/
def runTrack (st : TrackState) (events : List (Bool × List Int)) : TrackState :=
  events.foldl (fun s e => processTrackFrame s e.1 e.2) st

/-! ## Precision resampling (`AudioProcessor.py`)

`_process_audio_chunk` computes the exact target sample count from the input
duration, calls `scipy.signal.resample` (external, a parameter of the model),
validates the result, and falls back to `np.interp`-based linear
interpolation.  Real-number arithmetic is embedded over the rationals. -/

/-- `self.target_sample_rate = 16000`. -/
def targetSampleRate : Nat := 16000

/-- `precise_target_length = int(input_duration * self.target_sample_rate)`
with `input_duration = len(audio_data) / original_sample_rate` (lines
583-584): the integer part of `(n / r1) * r2`. -/
def preciseTargetLength (n r1 r2 : Nat) : Nat :=
  Int.toNat ⌊((n : ℚ) / (r1 : ℚ)) * (r2 : ℚ)⌋

/-- The duration of `n` samples at rate `r` (seconds). -/
def sampleDuration (n r : Nat) : ℚ := (n : ℚ) / (r : ℚ)

/-- `duration_error = abs(output_duration - input_duration) / input_duration`
for the resampled output of an `n`-sample chunk taken from rate `r1` to rate
`r2` (expressed as a fraction, not the source's percentage). -/
def durationRelError (n r1 r2 : Nat) : ℚ :=
  |sampleDuration (preciseTargetLength n r1 r2) r2 - sampleDuration n r1| / sampleDuration n r1

/-- The positions `np.linspace(0, original_length - 1, target_length)` used by
the linear-interpolation fallback. -/
def linspacePositions (len target : Nat) : List ℚ :=
  (List.range target).map fun (j : Nat) =>
    if target ≤ 1 then 0 else (j : ℚ) * ((len : ℚ) - 1) / ((target : ℚ) - 1)

/-- Linear interpolation of a sample list at a (non-negative, in-range)
position, as `np.interp` does between the integer grid points. -/
def interpAt (xs : List ℚ) (p : ℚ) : ℚ :=
  let i := Int.toNat ⌊p⌋
  let t := p - (⌊p⌋ : ℚ)
  (1 - t) * xs.getD i 0 + t * xs.getD (i + 1) (xs.getD i 0)

/-- The `np.interp(new_indices, old_indices, audio_data)` fallback (lines
638-640): one interpolated sample per target position. -/
def linearResample (xs : List ℚ) (target : Nat) : List ℚ :=
  (linspacePositions xs.length target).map (interpAt xs)

/-- The resampling branch of `_process_audio_chunk` (AudioProcessor.py lines
579-647) for a chunk needing resampling.  `scipyResult` is the outcome of
the external `scipy.signal.resample` call (`none` when it raises).  The
result is kept only when its length equals the precise target length and
the duration error is under 0.1%; otherwise (including the raised
`ValueError` of the quality check) the linear-interpolation fallback at the
same target length is used. -/
def resampleChunk (scipyResult : Option (List ℚ)) (xs : List ℚ) (r1 : Nat) : List ℚ :=
  let target := preciseTargetLength xs.length r1 targetSampleRate
  match scipyResult with
  | some r =>
      if r.length = target ∧ durationRelError xs.length r1 targetSampleRate < 1 / 1000 then r
      else linearResample xs target
  | none => linearResample xs target

/-! ## Jitter-buffer frame emission (`AudioOutputTrack.py`)

`_get_next_samples` pulls one 480-sample frame per call from the FIFO of
sample arrays; sample values are embedded as integers (their arithmetic is
irrelevant to the claim). -/

/-- `self.samples_per_frame = 480` (20 ms frames at 24 kHz). -/
def samplesPerFrame : Nat := 480

/-- The state of `AudioOutputTrack` relevant to emission: the FIFO
`self.audio_buffer` and the `buffer_underruns` statistic. -/
structure JitterState where
  audioBuffer : List (List Int)
  bufferUnderruns : Nat
  deriving DecidableEq

/-- `_get_next_samples` (AudioOutputTrack.py lines 128-180): returns the frame
to emit (`none` means the caller plays silence) and the updated state.  A
head array longer than one frame is split, the remainder going back to the
front of the queue; a shorter head is consumed whole and padded with zeros;
an empty queue yields silence and one underrun increment. -/
def getNextSamples (st : JitterState) : Option (List Int) × JitterState :=
  match st.audioBuffer with
  | [] => (none, { st with bufferUnderruns := st.bufferUnderruns + 1 })
  | samples :: rest =>
      if samplesPerFrame ≤ samples.length then
        if samplesPerFrame < samples.length then
          (some (samples.take samplesPerFrame),
            { audioBuffer := samples.drop samplesPerFrame :: rest
              bufferUnderruns := st.bufferUnderruns })
        else
          (some (samples.take samplesPerFrame),
            { audioBuffer := rest, bufferUnderruns := st.bufferUnderruns })
      else
        (some (samples ++ List.replicate (samplesPerFrame - samples.length) 0),
          { audioBuffer := rest, bufferUnderruns := st.bufferUnderruns })

/-- Total number of samples queued in the jitter buffer. -/
def queuedSamples (st : JitterState) : Nat :=
  (st.audioBuffer.map List.length).sum

/-! ## SDP-answer validation in the responder role (`KVSWebRTCViewer.py`)

`_handle_messages` applies an incoming `SDP_ANSWER` only after three guards;
every rejected answer is skipped with `continue`, leaving all state intact. -/

/-- The signaling states of the underlying peer connection that matter here. -/
inductive SigState where
  | stable : SigState
  | haveLocalOffer : SigState
  | haveRemoteOffer : SigState
  | closedSig : SigState
  deriving DecidableEq

/-- Peer-connection states (`pc.connectionState`). -/
inductive ConnState where
  | newConn : ConnState
  | connecting : ConnState
  | connected : ConnState
  | disconnected : ConnState
  | failed : ConnState
  | closedConn : ConnState
  deriving DecidableEq

/-- The viewer-side state consulted by the `SDP_ANSWER` branch: whether
`self.pc` exists, its connection and signaling states, and the single-use
`self.answer_processed` guard. -/
structure ViewerState where
  pcExists : Bool
  connectionState : ConnState
  signalingState : SigState
  answerProcessed : Bool
  deriving DecidableEq

/-- The `SDP_ANSWER` branch of `_handle_messages` (KVSWebRTCViewer.py lines
558-582): the answer is ignored (plain `continue`, never an exception) when
no usable peer connection exists, when an answer was already processed, or
when the signaling state is not `have-local-offer`; otherwise
`setRemoteDescription` is applied (driving the signaling state to `stable`)
and `answer_processed` is set.  The returned flag records whether the
answer was applied. -/
def handleSdpAnswer (st : ViewerState) : ViewerState × Bool :=
  if !st.pcExists ∨ st.connectionState = .closedConn ∨ st.connectionState = .failed then
    (st, false)
  else if st.answerProcessed then
    (st, false)
  else if st.signalingState ≠ .haveLocalOffer then
    (st, false)
  else
    ({ st with signalingState := .stable, answerProcessed := true }, true)

/-! # Theorems -/

/-! ## C1 — ordered, deduplicated delivery to the session-routing callback -/

/-- An S2S event message with sequence number 2. -/
def msgSeq2 : SeqMessage := { mid := some "m2", seqNum := some 2, requireAck := false }

/-- An S2S event message with sequence number 1. -/
def msgSeq1 : SeqMessage := { mid := some "m1", seqNum := some 1, requireAck := false }

set_option maxRecDepth 20000

/-- Claim C1 (the session-routing callback observes sequence-numbered messages
in strictly increasing order, each duplicate delivered at most once, with every
sequence-numbered event deduplicated and passed through ordered-delivery
admission) evaluated at a failing input.  For the permutation in which
sequence 2 arrives before sequence 1: (a) the actual receive path
(`_handle_data_channel_message` → `_handle_s2s_event`) hands the messages to
the callback in arrival order `[2, 1]` and never touches the expected-sequence
state, since `S2S_EVENT` messages are dispatched without invoking
`_handle_s2s_event_with_ordering`; (b) even `_handle_s2s_event_with_ordering`
itself delivers the buffered sequence-2 message before the in-order sequence-1
message, so the callback again observes `[2, 1]`; (c) `[2, 1]` is not strictly
increasing; and (d) on the actual receive path the same message delivered
twice reaches the callback twice, so there is no deduplication either. -/
theorem eventBridge_seq_delivery_claim_fails_on_code :
    ((dispatchS2sEvent (dispatchS2sEvent initOrderState msgSeq2) msgSeq1).callbackLog.map
        (fun m => m.seqNum) = [some 2, some 1] ∧
      (dispatchS2sEvent (dispatchS2sEvent initOrderState msgSeq2) msgSeq1).expectedSeq = 1) ∧
    ((handleWithOrdering (handleWithOrdering initOrderState msgSeq2) msgSeq1).callbackLog.map
        (fun m => m.seqNum) = [some 2, some 1]) ∧
    ¬ List.Pairwise (fun a b => a < b) [2, 1] ∧
    ((dispatchS2sEvent (dispatchS2sEvent initOrderState msgSeq1) msgSeq1).callbackLog =
      [msgSeq1, msgSeq1]) := by
  exact ⟨⟨by decide, by decide⟩, by decide, by decide, by decide⟩

/-! ## C10 — chunk-reassembly completion decided by reception count -/

/-- A chunk message for index 0 of a two-chunk message. -/
def dupChunk : ChunkMessage :=
  { chunkId := "c1", chunkIndex := 0, totalChunks := 2, data := ['a'],
    isLast := false, requireAck := false }

/-- Claim C10: reassembly completion is decided by the count of chunk
receptions, not by the number of distinct filled slots.  Receiving the same
`chunkIndex = 0` twice for a two-chunk message first stores a buffer with
`received_count = 1` and slot 1 still empty; the second reception drives
`received_count` to `totalChunks` while slot 1 is still empty, the join of the
slot array fails, the chunk buffer is deleted, and the message is discarded
instead of being reassembled. -/
theorem eventBridge_chunk_completion_by_count :
    (handleChunk [] dupChunk).1 =
      [("c1", { chunks := [some ['a'], none], receivedCount := 1 })] ∧
    (handleChunk [] dupChunk).2 = ChunkOutcome.stored ∧
    receiveSequence [] [dupChunk, dupChunk] = ([], [.stored, .discarded]) := by
  exact ⟨by decide, by decide, by decide⟩

/-! ## C6 — session-readiness gating of inbound audio -/

/-- One 480-sample audio frame (the 48 kHz frames of the spec scenario). -/
def frame480 : List Int := List.replicate 480 1

/-- The spec scenario: 10 frames before the session is ready, then one after. -/
def scenario11 : List (Bool × List Int) :=
  List.replicate 10 (false, frame480) ++ [(true, frame480)]

/-- The scenario continued with further post-readiness frames (20 in total). -/
def scenario20 : List (Bool × List Int) :=
  List.replicate 10 (false, frame480) ++ List.replicate 10 (true, frame480)

/-- Claim C6 asserts that in the spec scenario the 11th (first post-readiness)
frame "is forwarded".  Running the embedded `_process_audio_track` loop on the
scenario shows the 10 pre-readiness frames are counted as ignored and nothing
at all has been forwarded after the 11th frame: the frame only sits in
`audio_chunk_buffer`, because neither flush condition (≥ 4096 buffered samples
or a frame count divisible by 10) holds at frame 11. -/
theorem audioProcessor_readiness_eleventh_frame_not_yet_forwarded :
    (runTrack initTrackState scenario11).ignoredFrames = 10 ∧
    (runTrack initTrackState scenario11).forwardedChunks = [] ∧
    (runTrack initTrackState scenario11).chunkBuffer = [frame480] := by
  exact ⟨by decide, by decide, by decide⟩

/-- Claim C6 as amended: a frame arriving before readiness only increments the
ignored-frames counter and is discarded — it is neither buffered nor
forwarded; in the spec scenario all 10 pre-readiness frames are counted as
ignored and none reaches the model-facing path; the 11th post-readiness frame
is admitted to the accumulation buffer rather than ignored, and is forwarded
once the accumulation condition is met — continuing the scenario with further
post-readiness frames, the first flushed chunk begins with the 11th frame's
samples. -/
theorem audioProcessor_readiness_gate_amended :
    (∀ (st : TrackState) (samples : List Int),
      processTrackFrame st false samples =
        { st with frameCount := st.frameCount + 1, ignoredFrames := st.ignoredFrames + 1 }) ∧
    ((runTrack initTrackState scenario11).ignoredFrames = 10 ∧
      (runTrack initTrackState scenario11).forwardedChunks = [] ∧
      (runTrack initTrackState scenario11).chunkBuffer = [frame480]) ∧
    ((runTrack initTrackState scenario20).ignoredFrames = 10 ∧
      (runTrack initTrackState scenario20).forwardedChunks.length = 2 ∧
      (runTrack initTrackState scenario20).forwardedChunks.head?.map (fun c => c.take 480) =
        some frame480) := by
  refine ⟨fun st samples => by simp [processTrackFrame], ⟨by decide, by decide, by decide⟩,
    by decide, by decide, by decide⟩

/-! ## C8 — jitter-buffer frame emission -/

/-- Claim C8 asserts that every emission pass removes exactly one frame's worth
(480) of samples.  For a queue whose head array holds a single sample, one
pass removes that one sample (the head is consumed whole and the emitted frame
is padded with zeros), not 480. -/
theorem audioOutputTrack_short_head_removes_fewer_than_frame :
    queuedSamples { audioBuffer := [[5]], bufferUnderruns := 0 } = 1 ∧
    (getNextSamples { audioBuffer := [[5]], bufferUnderruns := 0 }).2.audioBuffer = [] ∧
    (getNextSamples { audioBuffer := [[5]], bufferUnderruns := 0 }).1 =
      some ((5 : Int) :: List.replicate 479 0) ∧
    (1 : Nat) ≠ 480 := by
  exact ⟨rfl, rfl, by decide, by decide⟩

/-- Claim C8 as amended: one emission pass removes at most one frame's worth of
samples.  If the head array is larger than the frame size, the frame is taken
from its front and the remainder returned to the front of the queue (exactly
480 samples removed); a head of exactly the frame size is consumed whole
(exactly 480 removed); a head shorter than the frame size is consumed whole
and the emitted frame padded with zeros (only the head's length removed); on
an empty queue a silence frame is emitted, the queue is unchanged, and the
underrun counter is incremented by exactly one for that pull — and it is
incremented only then. -/
theorem audioOutputTrack_emission_pass_amended (st : JitterState) :
    (st.audioBuffer = [] →
      (getNextSamples st).1 = none ∧
      (getNextSamples st).2.audioBuffer = st.audioBuffer ∧
      (getNextSamples st).2.bufferUnderruns = st.bufferUnderruns + 1) ∧
    (∀ h rest, st.audioBuffer = h :: rest →
      (getNextSamples st).2.bufferUnderruns = st.bufferUnderruns ∧
      (samplesPerFrame < h.length →
        (getNextSamples st).1 = some (h.take samplesPerFrame) ∧
        (getNextSamples st).2.audioBuffer = h.drop samplesPerFrame :: rest ∧
        queuedSamples st = queuedSamples (getNextSamples st).2 + samplesPerFrame) ∧
      (h.length = samplesPerFrame →
        (getNextSamples st).1 = some h ∧
        (getNextSamples st).2.audioBuffer = rest ∧
        queuedSamples st = queuedSamples (getNextSamples st).2 + samplesPerFrame) ∧
      (h.length < samplesPerFrame →
        (getNextSamples st).1 = some (h ++ List.replicate (samplesPerFrame - h.length) 0) ∧
        (getNextSamples st).2.audioBuffer = rest ∧
        queuedSamples st = queuedSamples (getNextSamples st).2 + h.length)) := by
  obtain ⟨buf, u⟩ := st
  constructor
  · rintro rfl
    exact ⟨rfl, rfl, rfl⟩
  · rintro h rest rfl
    by_cases hle : samplesPerFrame ≤ h.length
    · by_cases hlt : samplesPerFrame < h.length
      · have e1 : getNextSamples ⟨h :: rest, u⟩ =
            (some (h.take samplesPerFrame),
              { audioBuffer := h.drop samplesPerFrame :: rest, bufferUnderruns := u }) := by
          simp only [getNextSamples, if_pos hle, if_pos hlt]
        rw [e1]
        refine ⟨rfl, fun _ => ⟨rfl, rfl, ?_⟩, fun heq => absurd heq (by omega), fun hl =>
          absurd hl (by omega)⟩
        simp only [queuedSamples, List.map_cons, List.sum_cons, List.length_drop]
        omega
      · have heq : h.length = samplesPerFrame := by omega
        have e1 : getNextSamples ⟨h :: rest, u⟩ =
            (some (h.take samplesPerFrame), { audioBuffer := rest, bufferUnderruns := u }) := by
          simp only [getNextSamples, if_pos hle, if_neg hlt]
        rw [e1]
        refine ⟨rfl, fun hl => absurd hl hlt, fun _ =>
          ⟨by rw [List.take_of_length_le (le_of_eq heq)], rfl, ?_⟩, fun hl =>
          absurd hl (by omega)⟩
        simp only [queuedSamples, List.map_cons, List.sum_cons]
        omega
    · have hlt : h.length < samplesPerFrame := by omega
      have e1 : getNextSamples ⟨h :: rest, u⟩ =
          (some (h ++ List.replicate (samplesPerFrame - h.length) 0),
            { audioBuffer := rest, bufferUnderruns := u }) := by
        simp only [getNextSamples, if_neg hle]
      rw [e1]
      refine ⟨rfl, fun hl => absurd hl (by omega), fun heq => absurd heq (by omega), fun _ =>
        ⟨rfl, rfl, ?_⟩⟩
      simp only [queuedSamples, List.map_cons, List.sum_cons]
      omega

/-- Witness for the amended C8 theorem at concrete inputs: the empty-queue pull
emits silence and increments the underrun counter exactly once, and a pull
from a 481-sample head removes exactly 480 samples. -/
theorem audioOutputTrack_emission_pass_amended_witness :
    ((getNextSamples { audioBuffer := [], bufferUnderruns := 0 }).1 = none ∧
      (getNextSamples { audioBuffer := [], bufferUnderruns := 0 }).2.bufferUnderruns = 1) ∧
    queuedSamples { audioBuffer := [List.replicate 481 7], bufferUnderruns := 0 } =
      queuedSamples
        (getNextSamples { audioBuffer := [List.replicate 481 7], bufferUnderruns := 0 }).2 +
        samplesPerFrame := by
  have h1 := audioOutputTrack_emission_pass_amended { audioBuffer := [], bufferUnderruns := 0 }
  have h2 := audioOutputTrack_emission_pass_amended
    { audioBuffer := [List.replicate 481 7], bufferUnderruns := 0 }
  refine ⟨⟨(h1.1 rfl).1, (h1.1 rfl).2.2⟩, ?_⟩
  exact ((h2.2 (List.replicate 481 7) [] rfl).2.1 (by simp [samplesPerFrame])).2.2

/-! ## C9 — SDP-answer validation in the responder role -/

/-- Claim C9: an incoming SDP answer is applied (`setRemoteDescription`, then
the single-use `answer_processed` flag set) only when a peer connection
exists, no answer has been processed before, and the signaling state is
`have-local-offer`; a duplicate answer or an answer arriving in any other
signaling state is ignored without any change to connection or signaling
state (the branch ends in a plain `continue`, so it is never fatal to the
message loop). -/
theorem viewer_sdp_answer_guard (st : ViewerState) :
    ((handleSdpAnswer st).2 = true →
      st.pcExists = true ∧ st.answerProcessed = false ∧
        st.signalingState = SigState.haveLocalOffer) ∧
    ((handleSdpAnswer st).2 = true →
      (handleSdpAnswer st).1.answerProcessed = true ∧
      (handleSdpAnswer st).1.signalingState = SigState.stable ∧
      (handleSdpAnswer st).1.connectionState = st.connectionState) ∧
    ((handleSdpAnswer st).2 = false → (handleSdpAnswer st).1 = st) ∧
    (st.answerProcessed = true → (handleSdpAnswer st).2 = false ∧ (handleSdpAnswer st).1 = st) ∧
    (st.signalingState ≠ SigState.haveLocalOffer →
      (handleSdpAnswer st).2 = false ∧ (handleSdpAnswer st).1 = st) := by
  obtain ⟨pc, cs, ss, ap⟩ := st
  cases pc <;> cases ap <;> cases cs <;> cases ss <;>
    simp [handleSdpAnswer]

/-- Witness for the C9 theorem: in the scenario state — peer connection
established, signaling state `have-local-offer`, no answer processed yet —
the answer is applied, and a duplicate answer arriving afterwards is ignored
without any state change. -/
theorem viewer_sdp_answer_guard_witness :
    (handleSdpAnswer
        { pcExists := true, connectionState := ConnState.connecting,
          signalingState := SigState.haveLocalOffer, answerProcessed := false }).2 = true ∧
    (handleSdpAnswer
        { pcExists := true, connectionState := ConnState.connecting,
          signalingState := SigState.haveLocalOffer, answerProcessed := false }).1.answerProcessed
      = true ∧
    (handleSdpAnswer
        (handleSdpAnswer
          { pcExists := true, connectionState := ConnState.connecting,
            signalingState := SigState.haveLocalOffer, answerProcessed := false }).1).2 = false ∧
    (handleSdpAnswer
        (handleSdpAnswer
          { pcExists := true, connectionState := ConnState.connecting,
            signalingState := SigState.haveLocalOffer, answerProcessed := false }).1).1 =
      (handleSdpAnswer
        { pcExists := true, connectionState := ConnState.connecting,
          signalingState := SigState.haveLocalOffer, answerProcessed := false }).1 := by
  have h1 := viewer_sdp_answer_guard
    { pcExists := true, connectionState := ConnState.connecting,
      signalingState := SigState.haveLocalOffer, answerProcessed := false }
  have h2 := viewer_sdp_answer_guard
    (handleSdpAnswer
      { pcExists := true, connectionState := ConnState.connecting,
        signalingState := SigState.haveLocalOffer, answerProcessed := false }).1
  exact ⟨rfl, (h1.2.1 rfl).1, (h2.2.2.2.1 rfl).1, (h2.2.2.2.1 rfl).2⟩

/-! ## C4 — retry on ack timeout -/

/-- Claim C4 asserts that a message sent with `requireAck = true` that receives
no acknowledgment within the ack timeout is retried.  On the code, sending
such a message inserts nothing into `pending_acks` or `message_retry_map`, and
the ack-timeout handler only deletes a (never-populated) `pending_acks` slot:
after the timeout for message `"m1"` fires, the retry map is still empty and
the subsequent retry sweep retries nothing and drops nothing — the
unacknowledged message is retried zero times. -/
theorem eventBridge_ack_timeout_never_retries :
    (sendSingleMessage initAckState "m1" true).pendingAcks = [] ∧
    (sendSingleMessage initAckState "m1" true).retryMap = [] ∧
    (sendSingleMessage initAckState "m1" true).ackTimers = ["m1"] ∧
    (handleAckTimeout (sendSingleMessage initAckState "m1" true) "m1").retryMap = [] ∧
    retrySweep defaultRetryConfig 100 (fun _ => true)
      (handleAckTimeout (sendSingleMessage initAckState "m1" true) "m1").retryMap
      = ([], 0, []) :=
  ⟨rfl, rfl, rfl, rfl, rfl⟩

/-- Claim C4 as amended: an ack timeout only releases the pending-ack slot and
never schedules a retry; retries apply only to entries of the send-failure
retry map.  For those, the periodic sweep retries an entry exactly when its
age exceeds `retryDelay * 2^retryCount`, `retryCount < maxRetries`, and the
client is connected — so a retried entry has been retried fewer than
`maxRetries` (default 3) times and the retry thresholds grow strictly
(classic exponential backoff) — while an entry whose `retryCount` has reached
`maxRetries` is permanently dropped and counted in the dropped-message
statistic. -/
theorem eventBridge_retry_sweep_amended (cfg : RetryConfig) (now : ℚ) (connected : Bool)
    (e : RetryEntry) (hdelay : 0 < cfg.retryDelay) :
    (sweepAction cfg now connected e = SweepAction.retry ↔
      (cfg.retryDelay * 2 ^ e.retryCount < now - e.lastAttempt ∧
        e.retryCount < cfg.maxRetries ∧ connected = true)) ∧
    (sweepAction cfg now connected e = SweepAction.dropEntry ↔
      cfg.maxRetries ≤ e.retryCount) ∧
    (sweepAction cfg now connected e = SweepAction.retry → e.retryCount < cfg.maxRetries) ∧
    cfg.retryDelay * 2 ^ e.retryCount < cfg.retryDelay * 2 ^ (e.retryCount + 1) ∧
    (∀ (st : AckState) (mid : String), (handleAckTimeout st mid).retryMap = st.retryMap) ∧
    (cfg.maxRetries ≤ e.retryCount →
      ∀ mid, retrySweep cfg now (fun _ => connected) [(mid, e)] = ([], 1, [])) := by
  have hpow : (0 : ℚ) < 2 ^ e.retryCount := by positivity
  have hpows : (2 : ℚ) ^ (e.retryCount + 1) = 2 * 2 ^ e.retryCount := by ring
  refine ⟨?_, ?_, ?_, ?_, fun st mid => rfl, ?_⟩
  · unfold sweepAction
    split_ifs with h1 h2 h3 <;> simp_all
  · unfold sweepAction
    split_ifs with h1 h2 h3 <;> simp_all
  · unfold sweepAction
    split_ifs with h1 h2 h3 <;> simp_all
  · nlinarith
  · intro hmax mid
    have hact : sweepAction cfg now connected e = SweepAction.dropEntry := by
      unfold sweepAction
      split_ifs with h1 h2 <;> simp_all <;> omega
    simp [retrySweep, hact]

/-- Witness for the amended C4 theorem at concrete inputs: with the default
configuration, an entry aged 10 s with zero prior retries for a connected
client is retried; the backoff threshold strictly grows; and an entry at the
retry cap is dropped and counted. -/
theorem eventBridge_retry_sweep_amended_witness :
    sweepAction defaultRetryConfig 10 true
      { clientId := "c", retryCount := 0, lastAttempt := 0, requireAck := true }
      = SweepAction.retry ∧
    defaultRetryConfig.retryDelay * 2 ^ 0 < defaultRetryConfig.retryDelay * 2 ^ 1 ∧
    retrySweep defaultRetryConfig 10 (fun _ => true)
      [("m9", { clientId := "c", retryCount := 3, lastAttempt := 0, requireAck := true })]
      = ([], 1, []) := by
  have h1 := eventBridge_retry_sweep_amended defaultRetryConfig 10 true
    { clientId := "c", retryCount := 0, lastAttempt := 0, requireAck := true }
    (by norm_num [defaultRetryConfig])
  have h2 := eventBridge_retry_sweep_amended defaultRetryConfig 10 true
    { clientId := "c", retryCount := 3, lastAttempt := 0, requireAck := true }
    (by norm_num [defaultRetryConfig])
  refine ⟨h1.1.mpr ⟨by norm_num [defaultRetryConfig], by norm_num [defaultRetryConfig], rfl⟩,
    h1.2.2.2.1, h2.2.2.2.2.2 (by norm_num [defaultRetryConfig]) "m9"⟩

/-! ## C5 — voice-activity gating -/

/-- The outcome of `scanFrames` is `none` exactly when evaluating some frame
raises. -/
theorem scanFrames_none_iff (v : List Int → Option Bool) (fs : List (List Int)) :
    scanFrames v fs = none ↔ ∃ f ∈ fs, v f = none := by
  induction fs with
  | nil => simp [scanFrames]
  | cons f rest ih =>
    simp only [scanFrames, List.mem_cons]
    cases hv : v f with
    | none => simp [hv]
    | some b =>
      cases hs : scanFrames v rest with
      | none =>
        simp only [hs] at ih
        aesop
      | some c =>
        simp only [hs] at ih
        aesop

/-- The outcome of `scanFrames` is `some false` exactly when every frame
evaluates without raising and none is classified as speech. -/
theorem scanFrames_false_iff (v : List Int → Option Bool) (fs : List (List Int)) :
    scanFrames v fs = some false ↔ ∀ f ∈ fs, v f = some false := by
  induction fs with
  | nil => simp [scanFrames]
  | cons f rest ih =>
    simp only [scanFrames, List.mem_cons]
    cases hv : v f with
    | none => simp [hv]
    | some b =>
      cases hs : scanFrames v rest with
      | none =>
        simp only [hs] at ih
        aesop
      | some c =>
        simp only [hs] at ih
        aesop

/-- When `scanFrames` reports speech, some frame was classified as speech. -/
theorem scanFrames_true_exists (v : List Int → Option Bool) (fs : List (List Int))
    (h : scanFrames v fs = some true) : ∃ f ∈ fs, v f = some true := by
  induction fs with
  | nil => simp [scanFrames] at h
  | cons f rest ih =>
    simp only [scanFrames] at h
    cases hv : v f with
    | none => simp [hv] at h
    | some b =>
      rw [hv] at h
      cases hs : scanFrames v rest with
      | none => simp [hs] at h
      | some c =>
        rw [hs] at h
        simp only [Option.some.injEq] at h
        rcases Bool.or_eq_true_iff.mp h with hb | hc
        · exact ⟨f, List.mem_cons_self f rest, by rw [hv, hb]⟩
        · obtain ⟨g, hg, hgt⟩ := ih (by rw [hs, hc])
          exact ⟨g, List.mem_cons_of_mem f hg, hgt⟩

/-- Claim C5: with voice-activity gating enabled, a chunk is forwarded to the
model stream if and only if at least one complete 480-sample constituent
frame is classified as speech (the external `webrtcvad` detector is the
parameter `v`); a chunk on which the detector or analysis raises anywhere is
forwarded anyway (fail-safe); a chunk all of whose complete frames are
classified as non-speech — such as an all-silence chunk — is never forwarded;
and a chunk one of whose complete frames is classified as speech — such as
one containing a full-amplitude tone frame — is always forwarded. -/
theorem s2s_vad_gating (v : List Int → Option Bool) (samples : List Int) :
    ((∃ f ∈ completeFrames samples, v f = none) → forwardsChunk v samples = true) ∧
    ((∀ f ∈ completeFrames samples, v f = some false) → forwardsChunk v samples = false) ∧
    ((∃ f ∈ completeFrames samples, v f = some true) → forwardsChunk v samples = true) ∧
    ((∀ f ∈ completeFrames samples, v f ≠ none) →
      (forwardsChunk v samples = true ↔ ∃ f ∈ completeFrames samples, v f = some true)) := by
  have g3 : (∃ f ∈ completeFrames samples, v f = some true) → forwardsChunk v samples = true := by
    rintro ⟨f, hf, ht⟩
    unfold forwardsChunk
    cases h : scanFrames v (completeFrames samples) with
    | none => rfl
    | some c =>
      cases c with
      | true => rfl
      | false =>
        have := (scanFrames_false_iff v (completeFrames samples)).mp h f hf
        rw [ht] at this
        exact absurd this (by simp)
  refine ⟨?_, ?_, g3, ?_⟩
  · rintro ⟨f, hf, hnone⟩
    have h := (scanFrames_none_iff v (completeFrames samples)).mpr ⟨f, hf, hnone⟩
    unfold forwardsChunk
    rw [h]
  · intro hall
    have h := (scanFrames_false_iff v (completeFrames samples)).mpr hall
    unfold forwardsChunk
    rw [h]
  · intro hn
    refine ⟨?_, g3⟩
    intro hfwd
    cases h : scanFrames v (completeFrames samples) with
    | none =>
      obtain ⟨f, hf, hfe⟩ := (scanFrames_none_iff v (completeFrames samples)).mp h
      exact absurd hfe (hn f hf)
    | some c =>
      cases c with
      | true => exact scanFrames_true_exists v (completeFrames samples) h
      | false =>
        have : forwardsChunk v samples = false := by
          unfold forwardsChunk
          rw [h]
        rw [this] at hfwd
        exact absurd hfwd (by simp)

/-- A concrete total detector classifying a frame as speech exactly when it
holds a nonzero sample, standing in for `webrtcvad` in the witness. -/
def vadAnyNonzero : List Int → Option Bool := fun f => some (f.any (fun x => x != 0))

/-- A 960-sample all-silence chunk (two complete 480-sample frames of zeros). -/
def silence960 : List Int := List.replicate 960 0

/-- A 960-sample chunk whose first complete frame is a full-amplitude tone
frame (int16 peak value 32767) followed by silence. -/
def toneChunk : List Int := List.replicate 480 32767 ++ List.replicate 480 0

/-- Witness for the C5 theorem at concrete inputs: under the concrete detector,
the all-silence chunk is not forwarded and the chunk containing a
full-amplitude tone frame is forwarded. -/
theorem s2s_vad_gating_witness :
    forwardsChunk vadAnyNonzero silence960 = false ∧
    forwardsChunk vadAnyNonzero toneChunk = true := by
  have h1 := s2s_vad_gating vadAnyNonzero silence960
  have h2 := s2s_vad_gating vadAnyNonzero toneChunk
  exact ⟨h1.2.1 (by decide), h2.2.2.1 (by decide)⟩

/-! ## C2 — ordered-delivery admission -/

/-- Erasing a key never lengthens the out-of-order buffer. -/
theorem bufErase_length_le (buf : List (Nat × SeqMessage)) (k : Nat) :
    (bufErase buf k).length ≤ buf.length := by
  induction buf with
  | nil => simp [bufErase]
  | cons p rest ih =>
    obtain ⟨k2, m⟩ := p
    simp only [bufErase]
    split
    · exact Nat.le_succ_of_le ih
    · simpa using ih

/-- Erasing a present key strictly shrinks the out-of-order buffer — the
termination argument of the `_process_buffered_messages` drain loop. -/
theorem bufErase_length_lt (buf : List (Nat × SeqMessage)) (k : Nat) (m : SeqMessage)
    (h : bufLookup buf k = some m) : (bufErase buf k).length < buf.length := by
  induction buf with
  | nil => simp [bufLookup] at h
  | cons p rest ih =>
    obtain ⟨k2, m2⟩ := p
    simp only [bufLookup] at h
    simp only [bufErase]
    by_cases hk : k2 = k
    · rw [if_pos hk]
      exact Nat.lt_succ_of_le (bufErase_length_le rest k)
    · rw [if_neg hk] at h ⊢
      simpa using ih h

/-- The drain loop only stops once no buffered message matches the (current)
expected sequence: its postcondition, provided the fuel covers the buffer. -/
theorem processBufferedAux_lookup_none (fuel : Nat) :
    ∀ st : OrderState, st.oooBuffer.length ≤ fuel →
      bufLookup (processBufferedAux fuel st).oooBuffer
        (processBufferedAux fuel st).expectedSeq = none := by
  induction fuel with
  | zero =>
    intro st hle
    have hnil : st.oooBuffer = [] := List.length_eq_zero.mp (Nat.le_zero.mp hle)
    simp [processBufferedAux, hnil, bufLookup]
  | succ fuel ih =>
    intro st hle
    simp only [processBufferedAux]
    cases h : bufLookup st.oooBuffer st.expectedSeq with
    | none => exact h
    | some m =>
      apply ih
      have := bufErase_length_lt st.oooBuffer st.expectedSeq m h
      simpa using Nat.lt_succ_iff.mp (Nat.lt_of_lt_of_le this hle)

/-- Each drain step hands exactly one buffered message to the callback and
advances the expected sequence by one: the drain appends some list `ds` of
drained messages to the callback log and bumps `expectedSeq` by `ds.length`. -/
theorem processBufferedAux_log_extend (fuel : Nat) :
    ∀ st : OrderState, ∃ ds,
      (processBufferedAux fuel st).callbackLog = st.callbackLog ++ ds ∧
      (processBufferedAux fuel st).expectedSeq = st.expectedSeq + ds.length := by
  induction fuel with
  | zero => intro st; exact ⟨[], by simp [processBufferedAux]⟩
  | succ fuel ih =>
    intro st
    simp only [processBufferedAux]
    cases h : bufLookup st.oooBuffer st.expectedSeq with
    | none => exact ⟨[], by simp⟩
    | some m =>
      obtain ⟨ds, hlog, hseq⟩ := ih _
      refine ⟨m :: ds, ?_, ?_⟩
      · rw [hlog]
        simp
      · rw [hseq]
        simp
        omega

/-- Claim C2: each client's `expectedSequence` counter starts at 1
(`add_data_channel`); a message whose sequence equals `expectedSequence` is
admitted for processing and `expectedSequence` is incremented, after which
every buffered out-of-order message matching the successive expected values is
drained in a loop (each drained message is handed to the callback and bumps
the counter once more, and afterwards no buffered message matches the new
expected value); a message whose sequence is greater is buffered and not
processed; a message whose sequence is less is dropped with the
duplicate counter bumped, an ack still being sent when the message requires
one (as also for a buffered message). -/
theorem eventBridge_ordered_admission (st : OrderState) (m : SeqMessage) (seq : Nat) :
    initOrderState.expectedSeq = 1 ∧
    (seq = st.expectedSeq →
      (handleOrderedMessage st m seq).1 = true ∧
      (∃ ds, (handleOrderedMessage st m seq).2.callbackLog = st.callbackLog ++ ds ∧
        (handleOrderedMessage st m seq).2.expectedSeq = st.expectedSeq + 1 + ds.length) ∧
      bufLookup (handleOrderedMessage st m seq).2.oooBuffer
        (handleOrderedMessage st m seq).2.expectedSeq = none) ∧
    (st.expectedSeq < seq →
      (handleOrderedMessage st m seq).1 = false ∧
      bufLookup (handleOrderedMessage st m seq).2.oooBuffer seq = some m ∧
      (handleOrderedMessage st m seq).2.expectedSeq = st.expectedSeq ∧
      (handleOrderedMessage st m seq).2.callbackLog = st.callbackLog ∧
      (m.requireAck = true →
        (handleOrderedMessage st m seq).2.acksSent = st.acksSent ++ [m.mid])) ∧
    (seq < st.expectedSeq →
      (handleOrderedMessage st m seq).1 = false ∧
      (handleOrderedMessage st m seq).2.oooBuffer = st.oooBuffer ∧
      (handleOrderedMessage st m seq).2.expectedSeq = st.expectedSeq ∧
      (handleOrderedMessage st m seq).2.callbackLog = st.callbackLog ∧
      (handleOrderedMessage st m seq).2.duplicateCount = st.duplicateCount + 1 ∧
      (m.requireAck = true →
        (handleOrderedMessage st m seq).2.acksSent = st.acksSent ++ [m.mid])) := by
  refine ⟨rfl, ?_, ?_, ?_⟩
  · intro heq
    simp only [handleOrderedMessage, if_pos heq]
    refine ⟨trivial, ?_, ?_⟩
    · obtain ⟨ds, hlog, hseq⟩ :=
        processBufferedAux_log_extend
          ({ st with expectedSeq := st.expectedSeq + 1 } : OrderState).oooBuffer.length
          { st with expectedSeq := st.expectedSeq + 1 }
      exact ⟨ds, by simpa [processBuffered] using hlog, by simpa [processBuffered] using hseq⟩
    · exact processBufferedAux_lookup_none _ _ le_rfl
  · intro hlt
    have hne : seq ≠ st.expectedSeq := Nat.ne_of_gt hlt
    simp only [handleOrderedMessage, if_neg hne, if_pos hlt]
    refine ⟨trivial, by simp [bufInsert, bufLookup], trivial, trivial, fun ha => by simp [ha]⟩
  · intro hlt
    have hne : seq ≠ st.expectedSeq := Nat.ne_of_lt hlt
    have hngt : ¬ st.expectedSeq < seq := by omega
    simp only [handleOrderedMessage, if_neg hne, if_neg hngt]
    exact ⟨trivial, trivial, trivial, trivial, trivial, fun ha => by simp [ha]⟩

/-- A state in which sequence 2 is already buffered out of order. -/
def c2State : OrderState :=
  { expectedSeq := 1
    oooBuffer := [(2, { mid := some "w", seqNum := some 2, requireAck := true })]
    deliveredIds := []
    callbackLog := []
    acksSent := []
    duplicateCount := 0
    outOfOrderCount := 0 }

/-- The in-order message with sequence 1 arriving at `c2State`. -/
def c2Msg : SeqMessage := { mid := some "v", seqNum := some 1, requireAck := false }

/-- Witness for the C2 theorem at a concrete input: with sequence 2 buffered and
`expectedSequence = 1`, the arriving sequence-1 message is admitted, the
buffered message is drained (the counter advances past it), and no buffered
message matches the new expected value. -/
theorem eventBridge_ordered_admission_witness :
    (handleOrderedMessage c2State c2Msg 1).1 = true ∧
    bufLookup (handleOrderedMessage c2State c2Msg 1).2.oooBuffer
      (handleOrderedMessage c2State c2Msg 1).2.expectedSeq = none := by
  have h := (eventBridge_ordered_admission c2State c2Msg 1).2.1 rfl
  exact ⟨h.1, h.2.2⟩

/-! ## C3 — chunk split/reassemble round trip -/

/-- An empty payload yields no chunks. -/
theorem totalChunksFor_nil (cs : Nat) (hcs : 0 < cs) : totalChunksFor cs [] = 0 := by
  unfold totalChunksFor
  simp only [List.length_nil, Nat.zero_add]
  exact Nat.div_eq_of_lt (by omega)

/-- Peeling the first chunk off a non-empty payload. -/
theorem totalChunksFor_succ (cs : Nat) (hcs : 0 < cs) (s : List Char) (hs : s ≠ []) :
    totalChunksFor cs s = totalChunksFor cs (s.drop cs) + 1 := by
  have hL : 0 < s.length := List.length_pos.mpr hs
  have hA : totalChunksFor cs s = (s.length - 1) / cs + 1 := by
    unfold totalChunksFor
    rw [show s.length + cs - 1 = (s.length - 1) + cs from by omega, Nat.add_div_right _ hcs]
  have hB : totalChunksFor cs (s.drop cs) = (s.length - 1) / cs := by
    unfold totalChunksFor
    rw [List.length_drop]
    by_cases hle : cs ≤ s.length
    · rw [show s.length - cs + cs - 1 = s.length - 1 from by omega]
    · rw [show s.length - cs = 0 from by omega]
      simp only [Nat.zero_add]
      rw [Nat.div_eq_of_lt (by omega), Nat.div_eq_of_lt (by omega)]
  rw [hA, hB]

/-- The zeroth slice is the first `cs` characters. -/
theorem chunkSlice_zero (cs : Nat) (s : List Char) : chunkSlice cs s 0 = s.take cs := by
  simp [chunkSlice]

/-- Later slices of `s` are slices of `s` with its first chunk dropped. -/
theorem chunkSlice_succ (cs : Nat) (s : List Char) (i : Nat) :
    chunkSlice cs s (i + 1) = chunkSlice cs (s.drop cs) i := by
  unfold chunkSlice
  rw [List.drop_drop]
  congr 2
  ring

/-- Concatenating the slices of `_send_large_message` in index order
reproduces the serialized payload. -/
theorem chunkDataList_flatten (cs : Nat) (hcs : 0 < cs) :
    ∀ (n : Nat) (s : List Char), s.length ≤ n →
      ((List.range (totalChunksFor cs s)).map (chunkSlice cs s)).flatten = s := by
  intro n
  induction n with
  | zero =>
    intro s hle
    have hnil : s = [] := List.length_eq_zero.mp (Nat.le_zero.mp hle)
    subst hnil
    simp [totalChunksFor_nil cs hcs]
  | succ n ih =>
    intro s hle
    by_cases hnil : s = []
    · subst hnil
      simp [totalChunksFor_nil cs hcs]
    · rw [totalChunksFor_succ cs hcs s hnil, List.range_succ_eq_map, List.map_cons,
        List.map_map]
      have hfun : (chunkSlice cs s ∘ Nat.succ) = chunkSlice cs (s.drop cs) :=
        funext fun i => chunkSlice_succ cs s i
      rw [hfun, List.flatten_cons, chunkSlice_zero,
        ih (s.drop cs) (by
          rw [List.length_drop]
          have : 0 < s.length := List.length_pos.mpr hnil
          omega),
        List.take_append_drop]

/-- Every in-range slice is non-empty, so it passes the `not data` validation
of `_handle_chunk`. -/
theorem chunkSlice_ne_nil (cs : Nat) (hcs : 0 < cs) (s : List Char) (i : Nat)
    (hi : i < totalChunksFor cs s) : chunkSlice cs s i ≠ [] := by
  have hL : 0 < s.length := by
    by_contra h
    have : s = [] := List.length_eq_zero.mp (by omega)
    rw [this, totalChunksFor_nil cs hcs] at hi
    omega
  have htot : totalChunksFor cs s = (s.length - 1) / cs + 1 := by
    unfold totalChunksFor
    rw [show s.length + cs - 1 = (s.length - 1) + cs from by omega, Nat.add_div_right _ hcs]
  have hi2 : i ≤ (s.length - 1) / cs := by omega
  have hmul : i * cs ≤ s.length - 1 := by
    calc i * cs ≤ ((s.length - 1) / cs) * cs := Nat.mul_le_mul_right cs hi2
    _ ≤ s.length - 1 := Nat.div_mul_le_self _ _
  have hlt : i * cs < s.length := by omega
  unfold chunkSlice
  intro hcon
  have := congrArg List.length hcon
  rw [List.length_take, List.length_drop, List.length_nil] at this
  omega

/-- Joining a fully-populated slot array succeeds and returns the contents. -/
theorem seqOptions_map_some (l : List (List Char)) : seqOptions (l.map some) = some l := by
  induction l with
  | nil => rfl
  | cons c rest ih => simp [seqOptions, ih]

/-- Writing a slot just past a prefix writes into the head of the suffix. -/
theorem set_append_left_length (A B : List (Option (List Char))) (v : Option (List Char)) :
    (A ++ B).set A.length v = A ++ B.set 0 v := by
  induction A with
  | nil => simp
  | cons a A ih => simp [List.set, ih]

/-- The ordered slice list of one oversized payload. -/
def chunkDatas (s : List Char) : List (List Char) :=
  (List.range (totalChunksFor chunkSize s)).map (chunkSlice chunkSize s)

/-- The reassembly slot array after the first `k` chunks have been received in
index order: the first `k` slots filled, the rest still empty. -/
def slotsAt (s : List Char) (k : Nat) : List (Option (List Char)) :=
  ((chunkDatas s).take k).map some ++
    List.replicate (totalChunksFor chunkSize s - k) none

/-- There is one slice per chunk. -/
theorem chunkDatas_length (s : List Char) :
    (chunkDatas s).length = totalChunksFor chunkSize s := by
  simp [chunkDatas]

/-- Before any reception all slots are empty, as `_handle_chunk` initialises
them (`[None] * total_chunks`). -/
theorem slotsAt_zero (s : List Char) :
    slotsAt s 0 = List.replicate (totalChunksFor chunkSize s) none := by
  simp [slotsAt]

/-- Receiving chunk `k` into the `k`-filled slot array fills slot `k`. -/
theorem slotsAt_set (s : List Char) (k : Nat) (hk : k < totalChunksFor chunkSize s) :
    (slotsAt s k).set k (some (chunkSlice chunkSize s k)) = slotsAt s (k + 1) := by
  have hlen : (((chunkDatas s).take k).map some).length = k := by
    simp only [List.length_map, List.length_take, chunkDatas_length]
    omega
  have hset := set_append_left_length (((chunkDatas s).take k).map some)
    (List.replicate (totalChunksFor chunkSize s - k) none) (some (chunkSlice chunkSize s k))
  rw [hlen] at hset
  rw [slotsAt, hset]
  have hrep : List.replicate (totalChunksFor chunkSize s - k) (none : Option (List Char)) =
      none :: List.replicate (totalChunksFor chunkSize s - (k + 1)) none := by
    rw [show totalChunksFor chunkSize s - k = (totalChunksFor chunkSize s - (k + 1)) + 1
      from by omega]
    rfl
  rw [hrep]
  have hrange : (List.range (totalChunksFor chunkSize s))[k]? = some k :=
    List.getElem?_range hk
  have hget : (chunkDatas s)[k]? = some (chunkSlice chunkSize s k) := by
    simp [chunkDatas, List.getElem?_map, hrange]
  unfold slotsAt
  rw [List.take_succ, hget]
  simp [List.set]

/-- Once every chunk has been received the slot array is fully populated. -/
theorem slotsAt_total (s : List Char) :
    slotsAt s (totalChunksFor chunkSize s) = (chunkDatas s).map some := by
  unfold slotsAt
  rw [Nat.sub_self, List.take_of_length_le (le_of_eq (chunkDatas_length s))]
  simp

/-- Receiving chunk `k` (for `1 ≤ k`) into the table holding the `k`-filled
buffer either completes the message (when `k` was the last index) — joining
the slots, deleting the buffer and re-dispatching the payload — or stores the
`(k+1)`-filled buffer. -/
theorem handleChunk_mk_step (cid : String) (ack : Bool) (s : List Char) (k : Nat)
    (hcid : ¬ cid = "") (hk : k < totalChunksFor chunkSize s) :
    handleChunk [(cid, { chunks := slotsAt s k, receivedCount := k })]
        (mkChunkMessage cid ack s k) =
      if k + 1 = totalChunksFor chunkSize s then
        ([], ChunkOutcome.reassembled (chunkDatas s).flatten)
      else
        ([(cid, { chunks := slotsAt s (k + 1), receivedCount := k + 1 })],
          ChunkOutcome.stored) := by
  have hne := chunkSlice_ne_nil chunkSize (by norm_num [chunkSize]) s k hk
  have hval : ¬ ((mkChunkMessage cid ack s k).chunkId = "" ∨
      (mkChunkMessage cid ack s k).totalChunks = 0 ∨
      (mkChunkMessage cid ack s k).data = []) := by
    simp only [mkChunkMessage]
    push_neg
    exact ⟨hcid, by omega, hne⟩
  unfold handleChunk
  rw [if_neg hval]
  simp only [mkChunkMessage, tblLookup, eq_self_iff_true, if_true]
  rw [slotsAt_set s k hk]
  by_cases hlast : k + 1 = totalChunksFor chunkSize s
  · rw [if_pos hlast, if_pos hlast, hlast, slotsAt_total, seqOptions_map_some]
    simp [tblErase]
  · rw [if_neg hlast, if_neg hlast]
    simp [tblInsert, tblErase]

/-- Receiving chunk 0 into an empty table creates the buffer and fills slot 0
(or completes a single-chunk message). -/
theorem handleChunk_mk_first (cid : String) (ack : Bool) (s : List Char)
    (hcid : ¬ cid = "") (h0 : 0 < totalChunksFor chunkSize s) :
    handleChunk [] (mkChunkMessage cid ack s 0) =
      if 1 = totalChunksFor chunkSize s then
        ([], ChunkOutcome.reassembled (chunkDatas s).flatten)
      else
        ([(cid, { chunks := slotsAt s 1, receivedCount := 1 })], ChunkOutcome.stored) := by
  have hne := chunkSlice_ne_nil chunkSize (by norm_num [chunkSize]) s 0 h0
  have hval : ¬ ((mkChunkMessage cid ack s 0).chunkId = "" ∨
      (mkChunkMessage cid ack s 0).totalChunks = 0 ∨
      (mkChunkMessage cid ack s 0).data = []) := by
    simp only [mkChunkMessage]
    push_neg
    exact ⟨hcid, by omega, hne⟩
  unfold handleChunk
  rw [if_neg hval]
  simp only [mkChunkMessage, tblLookup]
  have hz : (List.replicate (totalChunksFor chunkSize s) (none : Option (List Char))).set 0
      (some (chunkSlice chunkSize s 0)) = slotsAt s 1 := by
    rw [← slotsAt_zero, slotsAt_set s 0 h0]
  rw [hz]
  by_cases hlast : 0 + 1 = totalChunksFor chunkSize s
  · rw [if_pos hlast, if_pos (show (1 : Nat) = totalChunksFor chunkSize s from by omega)]
    have hs1 : slotsAt s 1 = (chunkDatas s).map some := by
      have h := slotsAt_total s
      rw [show totalChunksFor chunkSize s = 1 from by omega] at h
      exact h
    rw [hs1, seqOptions_map_some]
    simp [tblErase]
  · rw [if_neg hlast, if_neg (show ¬ (1 : Nat) = totalChunksFor chunkSize s from by omega)]
    simp [tblInsert, tblErase]

/-- Receiving the remaining chunks `k, k+1, …` in index order from the
`k`-filled buffer ends with the table empty and the final outcome the
reassembled payload. -/
theorem receiveSequence_mk_suffix (cid : String) (hcid : ¬ cid = "") (ack : Bool)
    (s : List Char) :
    ∀ (m : Nat), ∀ (k : Nat), 1 ≤ m → 1 ≤ k → k + m = totalChunksFor chunkSize s →
      (receiveSequence [(cid, { chunks := slotsAt s k, receivedCount := k })]
          ((List.range' k m).map (mkChunkMessage cid ack s))).1 = [] ∧
      ((receiveSequence [(cid, { chunks := slotsAt s k, receivedCount := k })]
          ((List.range' k m).map (mkChunkMessage cid ack s))).2).getLast? =
        some (ChunkOutcome.reassembled (chunkDatas s).flatten) := by
  intro m
  induction m with
  | zero => intro k hm; omega
  | succ m ih =>
    intro k hm hk hsum
    have hkt : k < totalChunksFor chunkSize s := by omega
    have hdecomp : (List.range' k (m + 1)).map (mkChunkMessage cid ack s) =
        mkChunkMessage cid ack s k :: (List.range' (k + 1) m).map (mkChunkMessage cid ack s) :=
      rfl
    rw [hdecomp]
    simp only [receiveSequence]
    rw [handleChunk_mk_step cid ack s k hcid hkt]
    by_cases hlast : k + 1 = totalChunksFor chunkSize s
    · have hm0 : m = 0 := by omega
      subst hm0
      rw [if_pos hlast]
      simp [receiveSequence]
    · have hm1 : 1 ≤ m := by omega
      rw [if_neg hlast]
      obtain ⟨h1, h2⟩ := ih (k + 1) hm1 (by omega) (by omega)
      refine ⟨h1, ?_⟩
      cases hr : (receiveSequence [(cid, { chunks := slotsAt s (k + 1), receivedCount := k + 1 })]
          ((List.range' (k + 1) m).map (mkChunkMessage cid ack s))).2 with
      | nil =>
        rw [hr] at h2
        simp at h2
      | cons b t =>
        rw [hr] at h2
        simpa [List.getLast?_cons_cons] using h2

/-- Claim C3: for every message whose serialization exceeds the 64 KiB frame
limit, splitting it into ordered chunks of at most the 60 KB chunk size and
reassembling the received chunks reproduces the original serialized payload
byte-for-byte (the final outcome of receiving all chunks is the reassembled
original, with the chunk table cleaned up), and the ack-required flag is set
on a chunk exactly when it is the final chunk and the original send requested
an ack. -/
theorem eventBridge_chunk_roundtrip (s : List Char) (cid : String) (ack : Bool)
    (hlen : maxMessageSize < s.length) (hcid : ¬ cid = "") :
    ((sendLargeMessage cid ack s).map ChunkMessage.data).flatten = s ∧
    (∀ cm ∈ sendLargeMessage cid ack s, cm.data.length ≤ chunkSize) ∧
    (∀ cm ∈ sendLargeMessage cid ack s,
      (cm.requireAck = true ↔ ack = true ∧ cm.chunkIndex = totalChunksFor chunkSize s - 1)) ∧
    (receiveSequence [] (sendLargeMessage cid ack s)).1 = [] ∧
    ((receiveSequence [] (sendLargeMessage cid ack s)).2).getLast? =
      some (ChunkOutcome.reassembled s) := by
  have hcs : 0 < chunkSize := by norm_num [chunkSize]
  have hL : 65536 < s.length := hlen
  have htot2 : 2 ≤ totalChunksFor chunkSize s := by
    show 2 ≤ (s.length + chunkSize - 1) / chunkSize
    simp only [chunkSize]
    omega
  have hflat : ((List.range (totalChunksFor chunkSize s)).map (chunkSlice chunkSize s)).flatten
      = s := chunkDataList_flatten chunkSize hcs s.length s le_rfl
  have hflat2 : (chunkDatas s).flatten = s := hflat
  refine ⟨?_, ?_, ?_, ?_⟩
  · simp only [sendLargeMessage, List.map_map]
    exact hflat
  · intro cm hcm
    simp only [sendLargeMessage, List.mem_map] at hcm
    obtain ⟨i, hi, rfl⟩ := hcm
    simp only [mkChunkMessage, chunkSlice, List.length_take]
    exact min_le_left _ _
  · intro cm hcm
    simp only [sendLargeMessage, List.mem_map] at hcm
    obtain ⟨i, hi, rfl⟩ := hcm
    simp [mkChunkMessage]
  · have hdecomp : sendLargeMessage cid ack s =
        mkChunkMessage cid ack s 0 ::
          (List.range' 1 (totalChunksFor chunkSize s - 1)).map (mkChunkMessage cid ack s) := by
      unfold sendLargeMessage
      rw [List.range_eq_range']
      conv_lhs =>
        rw [show totalChunksFor chunkSize s = (totalChunksFor chunkSize s - 1) + 1
          from by omega]
      rfl
    rw [hdecomp]
    simp only [receiveSequence]
    rw [handleChunk_mk_first cid ack s hcid (by omega)]
    rw [if_neg (show ¬ (1 : Nat) = totalChunksFor chunkSize s from by omega)]
    obtain ⟨h1, h2⟩ := receiveSequence_mk_suffix cid hcid ack s
      (totalChunksFor chunkSize s - 1) 1 (by omega) le_rfl (by omega)
    refine ⟨h1, ?_⟩
    rw [hflat2] at h2
    cases hr : (receiveSequence [(cid, { chunks := slotsAt s 1, receivedCount := 1 })]
        ((List.range' 1 (totalChunksFor chunkSize s - 1)).map (mkChunkMessage cid ack s))).2 with
    | nil =>
      rw [hr] at h2
      simp at h2
    | cons b t =>
      rw [hr] at h2
      simpa [List.getLast?_cons_cons] using h2

/-- Witness for the C3 theorem at a concrete input: a 65537-character payload
(over the 64 KiB limit) splits into chunks that concatenate back to the
payload, and receiving all its chunks reassembles the original. -/
theorem eventBridge_chunk_roundtrip_witness :
    maxMessageSize < (List.replicate 65537 'a').length ∧
    ((sendLargeMessage "cw" true (List.replicate 65537 'a')).map ChunkMessage.data).flatten =
      List.replicate 65537 'a' ∧
    ((receiveSequence [] (sendLargeMessage "cw" true (List.replicate 65537 'a'))).2).getLast? =
      some (ChunkOutcome.reassembled (List.replicate 65537 'a')) := by
  have h := eventBridge_chunk_roundtrip (List.replicate 65537 'a') "cw" true
    (by norm_num [maxMessageSize]) (by decide)
  exact ⟨by norm_num [maxMessageSize], h.1, h.2.2.2.2⟩

/-! ## C7 — precision resampling -/

/-- The precise target length is the floor of the exact rational
`sourceSamples · targetRate / sourceRate` — i.e. natural division. -/
theorem preciseTargetLength_eq_div (n r1 r2 : Nat) :
    preciseTargetLength n r1 r2 = n * r2 / r1 := by
  unfold preciseTargetLength
  rw [Int.floor_toNat]
  have harg : ((n : ℚ) / (r1 : ℚ)) * (r2 : ℚ) = ((n * r2 : ℕ) : ℚ) / ((r1 : ℕ) : ℚ) := by
    push_cast
    ring
  rw [harg, Nat.floor_div_eq_div]

/-- The linear-interpolation fallback produces exactly the target number of
samples. -/
theorem linearResample_length (xs : List ℚ) (target : Nat) :
    (linearResample xs target).length = target := by
  unfold linearResample linspacePositions
  simp only [List.length_map, List.length_range]

/-- Whichever branch `_process_audio_chunk` takes — accepted band-limited
result, rejected result, or raised exception — the resampled output has
exactly the precise target length. -/
theorem resampleChunk_length (scipyResult : Option (List ℚ)) (xs : List ℚ) (r : Nat) :
    (resampleChunk scipyResult xs r).length =
      preciseTargetLength xs.length r targetSampleRate := by
  cases scipyResult with
  | none => exact linearResample_length _ _
  | some res =>
    show (if res.length = preciseTargetLength xs.length r targetSampleRate ∧
        durationRelError xs.length r targetSampleRate < 1 / 1000 then res
      else linearResample xs (preciseTargetLength xs.length r targetSampleRate)).length = _
    split_ifs with hc
    · exact hc.1
    · exact linearResample_length _ _

/-- The relative duration error in closed form: the floor remainder of the
exact rational target divided by that target. -/
theorem durationRelError_eq (n r1 r2 : Nat) (h1 : 0 < r1) (h2 : 0 < r2) (hn : 0 < n) :
    durationRelError n r1 r2 =
      (((n : ℚ) / (r1 : ℚ) * (r2 : ℚ)) - ⌊(n : ℚ) / (r1 : ℚ) * (r2 : ℚ)⌋) /
        ((n : ℚ) / (r1 : ℚ) * (r2 : ℚ)) := by
  have hr1 : (0 : ℚ) < r1 := by exact_mod_cast h1
  have hr2 : (0 : ℚ) < r2 := by exact_mod_cast h2
  have hnq : (0 : ℚ) < n := by exact_mod_cast hn
  set x : ℚ := ((n : ℚ) / (r1 : ℚ)) * (r2 : ℚ) with hxdef
  have hxpos : 0 < x := mul_pos (div_pos hnq hr1) hr2
  have hfloor_nonneg : 0 ≤ ⌊x⌋ := Int.floor_nonneg.mpr hxpos.le
  have htq : ((preciseTargetLength n r1 r2 : Nat) : ℚ) = (⌊x⌋ : ℚ) := by
    have h := Int.toNat_of_nonneg hfloor_nonneg
    unfold preciseTargetLength
    exact_mod_cast congrArg (fun z : ℤ => (z : ℚ)) h
  have hle : (⌊x⌋ : ℚ) ≤ x := Int.floor_le x
  unfold durationRelError sampleDuration
  rw [htq]
  have hinp : (n : ℚ) / (r1 : ℚ) = x / r2 := by
    rw [hxdef]
    field_simp
    ring
  rw [hinp, div_sub_div_same, abs_div, abs_of_pos hr2, abs_sub_comm,
    abs_of_nonneg (sub_nonneg.mpr hle)]
  rw [div_div_eq_mul_div, div_mul_eq_mul_div, mul_comm]
  rw [mul_comm (↑r2 : ℚ) (x - ↑⌊x⌋), mul_div_assoc, div_self (ne_of_gt hr2), mul_one]

/-- The output duration error is strictly below `1 / targetLength`. -/
theorem durationRelError_bound (n r1 r2 : Nat) (h1 : 0 < r1) (h2 : 0 < r2) (hn : 0 < n)
    (htp : 1 ≤ preciseTargetLength n r1 r2) :
    durationRelError n r1 r2 < 1 / (preciseTargetLength n r1 r2 : ℚ) := by
  have hr1 : (0 : ℚ) < r1 := by exact_mod_cast h1
  have hr2 : (0 : ℚ) < r2 := by exact_mod_cast h2
  have hnq : (0 : ℚ) < n := by exact_mod_cast hn
  set x : ℚ := ((n : ℚ) / (r1 : ℚ)) * (r2 : ℚ) with hxdef
  have hxpos : 0 < x := mul_pos (div_pos hnq hr1) hr2
  have hfloor_nonneg : 0 ≤ ⌊x⌋ := Int.floor_nonneg.mpr hxpos.le
  have htq : ((preciseTargetLength n r1 r2 : Nat) : ℚ) = (⌊x⌋ : ℚ) := by
    have h := Int.toNat_of_nonneg hfloor_nonneg
    unfold preciseTargetLength
    exact_mod_cast congrArg (fun z : ℤ => (z : ℚ)) h
  have ht1 : (1 : ℚ) ≤ (⌊x⌋ : ℚ) := by
    rw [← htq]
    exact_mod_cast htp
  have hle : (⌊x⌋ : ℚ) ≤ x := Int.floor_le x
  have hlt1 : x < (⌊x⌋ : ℚ) + 1 := Int.lt_floor_add_one x
  rw [durationRelError_eq n r1 r2 h1 h2 hn, htq, ← hxdef]
  rw [div_lt_div_iff₀ hxpos (lt_of_lt_of_le one_pos ht1)]
  nlinarith

/-- The output duration matches the input duration exactly precisely when the
source rate divides `sourceSamples · targetRate`. -/
theorem durationRelError_zero_iff (n r1 r2 : Nat) (h1 : 0 < r1) (h2 : 0 < r2) (hn : 0 < n) :
    durationRelError n r1 r2 = 0 ↔ r1 ∣ n * r2 := by
  have hr1 : (0 : ℚ) < r1 := by exact_mod_cast h1
  have hr2 : (0 : ℚ) < r2 := by exact_mod_cast h2
  have hnq : (0 : ℚ) < n := by exact_mod_cast hn
  rw [durationRelError_eq n r1 r2 h1 h2 hn]
  rw [show ((n : ℚ) / (r1 : ℚ) * (r2 : ℚ)) = (n : ℚ) * (r2 : ℚ) / (r1 : ℚ) from by ring]
  set x : ℚ := (n : ℚ) * (r2 : ℚ) / (r1 : ℚ) with hxdef
  have hxpos : 0 < x := div_pos (mul_pos hnq hr2) hr1
  have hxr : x * r1 = (n : ℚ) * r2 := by
    rw [hxdef]
    field_simp
  rw [div_eq_zero_iff]
  constructor
  · rintro (hz | hz)
    · have hxt : x = (⌊x⌋ : ℚ) := by linarith [sub_eq_zero.mp hz]
      have hmul : (n : ℚ) * r2 = (⌊x⌋ : ℚ) * r1 := by
        rw [← hxr]
        exact congrArg (fun y : ℚ => y * (r1 : ℚ)) hxt
      have hz2 : ((n * r2 : ℕ) : ℤ) = ⌊x⌋ * (r1 : ℤ) := by
        exact_mod_cast hmul
      have hdvd : ((r1 : ℕ) : ℤ) ∣ ((n * r2 : ℕ) : ℤ) := ⟨⌊x⌋, by rw [hz2]; ring⟩
      exact_mod_cast hdvd
    · exact absurd hz (ne_of_gt hxpos)
  · rintro ⟨q, hq⟩
    left
    have hc : ((n : ℚ) * r2) = (r1 : ℚ) * q := by
      exact_mod_cast congrArg (fun m : ℕ => (m : ℚ)) hq
    have hxq : x = (q : ℚ) := by
      rw [hxdef, hc]
      exact mul_div_cancel_left₀ _ (ne_of_gt hr1)
    rw [hxq, Int.floor_natCast]
    simp

/-- Claim C7 asserts that the resulting output duration is always within 0.1%
of the input duration.  For a 481-sample chunk resampled from 48 kHz to
16 kHz, the precise target length is 160 samples and the relative duration
error is `1/481 ≈ 0.208%`, exceeding the 0.1% tolerance (the code logs this
as a timing-precision failure but still emits the chunk). -/
theorem audioProcessor_resample_tolerance_exceeded :
    preciseTargetLength 481 48000 16000 = 160 ∧
    (1 : ℚ) / 1000 < durationRelError 481 48000 16000 := by
  have ht : preciseTargetLength 481 48000 16000 = 160 := by
    rw [preciseTargetLength_eq_div]
  refine ⟨ht, ?_⟩
  unfold durationRelError sampleDuration
  rw [ht]
  push_cast
  have hd : (160 : ℚ) / 16000 - 481 / 48000 = -(1 / 48000) := by norm_num
  rw [hd, abs_neg, abs_of_nonneg (by norm_num : (0 : ℚ) ≤ 1 / 48000)]
  norm_num

/-- Claim C7 as amended: the resampler's target sample count is the exact
integer part of `sourceSamples · targetRate / sourceRate` (natural division,
not a naive ratio of float lengths); the resulting output duration deviates
from the input duration by less than `1 / targetLength` relative — in
particular it is exact precisely when the source rate divides
`sourceSamples · targetRate`, and can exceed 0.1% for short chunks (larger
mismatches are logged as timing-precision defects, not silently ignored);
and both the accepted band-limited branch and the linear-interpolation
fallback produce output of exactly the target length. -/
theorem audioProcessor_resample_amended (n r1 r2 : Nat) (h1 : 0 < r1) (h2 : 0 < r2)
    (hn : 0 < n) :
    preciseTargetLength n r1 r2 = n * r2 / r1 ∧
    (1 ≤ preciseTargetLength n r1 r2 →
      durationRelError n r1 r2 < 1 / (preciseTargetLength n r1 r2 : ℚ)) ∧
    (durationRelError n r1 r2 = 0 ↔ r1 ∣ n * r2) ∧
    (∀ (scipyResult : Option (List ℚ)) (xs : List ℚ) (r : Nat),
      (resampleChunk scipyResult xs r).length =
        preciseTargetLength xs.length r targetSampleRate) :=
  ⟨preciseTargetLength_eq_div n r1 r2,
    durationRelError_bound n r1 r2 h1 h2 hn,
    durationRelError_zero_iff n r1 r2 h1 h2 hn,
    fun sci xs r => resampleChunk_length sci xs r⟩

/-- Witness for the amended C7 theorem at a concrete input: a 480-sample chunk
from 48 kHz to 16 kHz has precise target length 160 and zero duration error,
which is within the `1/160` bound. -/
theorem audioProcessor_resample_amended_witness :
    preciseTargetLength 480 48000 16000 = 160 ∧
    durationRelError 480 48000 16000 = 0 ∧
    durationRelError 480 48000 16000 < 1 / (160 : ℚ) := by
  have h := audioProcessor_resample_amended 480 48000 16000 (by norm_num) (by norm_num)
    (by norm_num)
  have ht : preciseTargetLength 480 48000 16000 = 160 := by
    rw [h.1]
  refine ⟨ht, h.2.2.1.mpr ⟨160, by norm_num⟩, ?_⟩
  have hb := h.2.1 (by rw [ht]; norm_num)
  rw [ht] at hb
  simpa using hb

end NovaS2S
